import Mathlib

/-! Shallow embedding of the Bitcoin-Tracker dashboard, `src/Bitcoin file/App.tsx`.
    Numbers coming from the market-data API are modelled as rationals; JavaScript
    strings are Lean strings, operated on through their character lists so that
    every definition evaluates by kernel reduction. -/

/-- A coin market record, mirroring the `Coin` interface of `App.tsx`.
    Fields marked optional in the interface become `Option` values, and
    `max_supply` is `Option ℚ` because the API may return `null` for it. -/
structure Coin where
  id : String
  symbol : String
  name : String
  current_price : ℚ
  price_change_percentage_24h : ℚ
  price_change_percentage_1h_in_currency : Option ℚ
  price_change_percentage_7d_in_currency : Option ℚ
  price_change_percentage_30d_in_currency : Option ℚ
  market_cap : ℚ
  market_cap_rank : ℚ
  market_cap_change_percentage_24h : Option ℚ
  total_volume : ℚ
  high_24h : ℚ
  low_24h : ℚ
  circulating_supply : ℚ
  total_supply : ℚ
  max_supply : Option ℚ
  ath : ℚ
  ath_date : String
  atl : ℚ
  atl_date : String
  image : String
  coin_description : Option String
deriving DecidableEq

/-- Character-wise lowercasing of a JavaScript string, the model of
    `String.prototype.toLowerCase()` (the source only ever compares ASCII
    identifiers and symbols). -/
def lowerChars (s : String) : List Char :=
  s.toList.map Char.toLower

/-- `charsBeginWith pat hay` holds when `hay` starts with `pat`. -/
def charsBeginWith : List Char → List Char → Bool
  | [], _ => true
  | _ :: _, [] => false
  | p :: ps, c :: cs => p == c && charsBeginWith ps cs

/-- `charsContain pat hay` holds when `pat` occurs contiguously inside `hay`;
    this is the model of `String.prototype.includes`. -/
def charsContain (pat : List Char) : List Char → Bool
  | [] => charsBeginWith pat []
  | c :: cs => charsBeginWith pat (c :: cs) || charsContain pat cs

/-- Model of `hay.toLowerCase().includes(pat.toLowerCase())` from the search filter. -/
def jsIncludes (hay pat : String) : Bool :=
  charsContain (lowerChars pat) (lowerChars hay)

/-- The `filteredCoins` derivation of `App.tsx`: keep the coins whose name or
    symbol contains the search term case-insensitively, preserving order. -/
def filteredCoins (coins : List Coin) (searchTerm : String) : List Coin :=
  coins.filter (fun coin => jsIncludes coin.name searchTerm || jsIncludes coin.symbol searchTerm)

/-- Spec-side notion (from the words of the spec, for comparison with the code):
    `pat` occurs as a contiguous substring of `hay`. -/
def IsSubstringOf (pat hay : List Char) : Prop :=
  ∃ pre post, hay = pre ++ pat ++ post

/-- Spec-side notion: the coin's display name or symbol contains the search
    string as a case-insensitive substring. -/
def MatchesSearch (s : String) (c : Coin) : Prop :=
  IsSubstringOf (lowerChars s) (lowerChars c.name) ∨ IsSubstringOf (lowerChars s) (lowerChars c.symbol)

/-- The `toggleFavorite` handler of `App.tsx`:
    `prev.includes(coinId) ? prev.filter(id => id !== coinId) : [...prev, coinId]`. -/
def toggleFavorite (coinId : String) (prev : List String) : List String :=
  if prev.contains coinId then prev.filter (fun id => id != coinId)
  else prev ++ [coinId]

/-- Outcome of an asynchronous request, as observed by the `try`/`catch` around it. -/
inductive FetchResult (α : Type) where
  | ok (data : α)
  | failure (msg : String)

/-- State touched by the list poll in the `App` component: the coin collection,
    the loading flag, and the console error log. -/
structure AppState where
  coins : List Coin
  loading : Bool
  errorLog : List String
deriving DecidableEq

/-- One run of `fetchCoins`: on success `setCoins(response.data)` replaces the
    collection wholesale; on failure only `console.error` runs; `finally`
    clears the loading flag either way. -/
def fetchCoinsStep (st : AppState) : FetchResult (List Coin) → AppState
  | FetchResult.ok data =>
      { st with coins := data, loading := false }
  | FetchResult.failure msg =>
      { st with errorLog := st.errorLog ++ ["Error fetching coins: " ++ msg], loading := false }

/-- Local state of the `CoinDetail` component: the fetched record (if any) and
    its own loading flag, initially `null` and `true`. -/
structure DetailState where
  coin : Option Coin
  loading : Bool
deriving DecidableEq

/-- The initial `useState` values of `CoinDetail`. -/
def initialDetailState : DetailState :=
  { coin := none, loading := true }

/-- One run of `fetchCoinDetail`: commit the record only on success, swallow the
    failure otherwise, and clear the loading flag in `finally`. -/
def fetchCoinDetailStep (st : DetailState) : FetchResult Coin → DetailState
  | FetchResult.ok data => { st with coin := some data, loading := false }
  | FetchResult.failure _ => { st with loading := false }

/-- What the `CoinDetail` component renders. -/
inductive DetailView where
  | loadingView
  | notFound
  | detail (c : Coin)
deriving DecidableEq

/-- The early returns of `CoinDetail`: a loading placeholder while `loading`,
    a not-found placeholder when no record was committed, the record otherwise. -/
def renderDetail (st : DetailState) : DetailView :=
  if st.loading then DetailView.loadingView
  else
    match st.coin with
    | none => DetailView.notFound
    | some c => DetailView.detail c

/-- Directional indicator shown next to a percentage change on a list card. -/
inductive Direction where
  | up
  | down
deriving DecidableEq

/-- The 24h arrow of `CoinCard`: `coin.price_change_percentage_24h > 0 ? up : down`. -/
def indicator24h (c : Coin) : Direction :=
  if 0 < c.price_change_percentage_24h then Direction.up else Direction.down

/-- Digit accumulator for printing a natural number, with explicit fuel so that
    the kernel can evaluate it. -/
def natDigitsAux : ℕ → ℕ → List Char
  | 0, _ => []
  | fuel + 1, n =>
      if n < 10 then [Nat.digitChar n]
      else natDigitsAux fuel (n / 10) ++ [Nat.digitChar (n % 10)]

/-- Decimal rendering of a natural number. -/
def natToStr (n : ℕ) : String :=
  String.mk (natDigitsAux (n + 1) n)

/-- Model of the JavaScript `Number.prototype.toFixed(2)` on a rational: the
    value scaled by 100 and rounded to the nearest integer (half towards plus
    infinity, standing in for the float rounding of the platform), printed with
    exactly two digits after the point. -/
def toFixed2 (q : ℚ) : String :=
  let scaled : ℤ := (200 * q.num + (q.den : ℤ)) / (2 * (q.den : ℤ))
  (if scaled < 0 then "-" else "") ++ natToStr (scaled.natAbs / 100) ++ "." ++
    (if scaled.natAbs % 100 < 10 then "0" else "") ++ natToStr (scaled.natAbs % 100)

/-- The right half of the supply line of `CoinCard`:
    `coin.max_supply ? (coin.max_supply / 1000000).toFixed(2) + 'M' : '∞'`.
    JavaScript truthiness makes both `null` and `0` take the infinity branch. -/
def maxSupplyText (c : Coin) : String :=
  match c.max_supply with
  | some m => if m = 0 then "∞" else toFixed2 (m / 1000000) ++ "M"
  | none => "∞"

/-- The left half of the supply line of `CoinCard`, up to the separator. -/
def supplyPrefix (c : Coin) : String :=
  "Supply: " ++ toFixed2 (c.circulating_supply / 1000000) ++ "M / "

/-- The full supply line of `CoinCard`. -/
def supplyText (c : Coin) : String :=
  supplyPrefix c ++ maxSupplyText c

/-- Escaping of one character as done by the platform `JSON.stringify` on
    strings: quote and backslash are escaped, other characters pass through
    (control characters are not modelled; coin identifiers never contain them). -/
def escapeJsonChar (c : Char) : List Char :=
  if c == '"' then ['\\', '"'] else if c == '\\' then ['\\', '\\'] else [c]

/-- JSON encoding of one string value. -/
def jsonEncodeString (s : String) : String :=
  String.mk ('"' :: (s.toList.map escapeJsonChar).flatten ++ ['"'])

/-- Model of `JSON.stringify` on the favorites array of strings. -/
def jsonStringifyStringList (l : List String) : String :=
  "[" ++ String.intercalate "," (l.map jsonEncodeString) ++ "]"

/-- JSON whitespace. -/
def isJsonWs (c : Char) : Bool :=
  match c with
  | ' ' => true
  | '\t' => true
  | '\n' => true
  | '\r' => true
  | _ => false

/-- Drop leading JSON whitespace. -/
def skipWs : List Char → List Char
  | [] => []
  | c :: cs => if isJsonWs c then skipWs cs else c :: cs

/-- Decode the character standing after a backslash in a JSON string literal
    (the model leaves out the rare escapes the app never writes). -/
def unescapeChar (c : Char) : Option Char :=
  match c with
  | '"' => some '"'
  | '\\' => some '\\'
  | '/' => some '/'
  | 'n' => some '\n'
  | 't' => some '\t'
  | 'r' => some '\r'
  | _ => none

/-- Parse the body of a JSON string literal after the opening quote; the flag
    records a pending backslash. Returns the decoded characters and the rest. -/
def parseStringBody : Bool → List Char → Option (List Char × List Char)
  | _, [] => none
  | true, e :: rest =>
      match unescapeChar e, parseStringBody false rest with
      | some c, some (s, r) => some (c :: s, r)
      | _, _ => none
  | false, c :: rest =>
      if c == '"' then some ([], rest)
      else if c == '\\' then parseStringBody true rest
      else
        match parseStringBody false rest with
        | some (s, r) => some (c :: s, r)
        | none => none

/-- Parse one JSON string literal. -/
def parseJsonStr : List Char → Option (String × List Char)
  | [] => none
  | c :: rest =>
      if c == '"' then
        match parseStringBody false rest with
        | some (s, r) => some (String.mk s, r)
        | none => none
      else none

/-- Parse the comma-separated items of a nonempty JSON array of strings, up to
    and including the closing bracket; fuel bounds the recursion. -/
def parseItems : ℕ → List Char → Option (List String × List Char)
  | 0, _ => none
  | fuel + 1, cs =>
      match parseJsonStr cs with
      | none => none
      | some (s, r) =>
          match skipWs r with
          | ']' :: tail => some ([s], tail)
          | ',' :: tail =>
              match parseItems fuel (skipWs tail) with
              | some (ss, r2) => some (s :: ss, r2)
              | none => none
          | _ => none

/-- Model of the platform `JSON.parse` restricted to the fragment the app ever
    stores: a JSON array of string literals. `none` stands for `JSON.parse`
    throwing a syntax error (texts that are valid JSON of another shape are
    outside the model and also mapped to `none`). -/
def jsonParseStringList (s : String) : Option (List String) :=
  match skipWs s.toList with
  | '[' :: rest =>
      match skipWs rest with
      | ']' :: tail => if skipWs tail == [] then some [] else none
      | body =>
          match parseItems (body.length + 1) body with
          | some (items, tail) => if skipWs tail == [] then some items else none
          | none => none
  | _ => none

/-- Result of evaluating the favorites `useState` initializer, which has no
    surrounding try/catch: either a value or a propagated exception. -/
inductive LoadResult where
  | ok (favs : List String)
  | thrown
deriving DecidableEq

/-- The favorites initializer of `App.tsx`:
    `const saved = localStorage.getItem('favorites'); return saved ? JSON.parse(saved) : []`.
    A missing entry (and the falsy empty string) yields `[]`; otherwise
    `JSON.parse` runs unguarded, so an unparseable text throws. -/
def load (stored : Option String) : LoadResult :=
  match stored with
  | none => LoadResult.ok []
  | some s =>
      if s == "" then LoadResult.ok []
      else
        match jsonParseStringList s with
        | some l => LoadResult.ok l
        | none => LoadResult.thrown

/-- Favorites state together with the persisted `localStorage` entry written by
    the `useEffect` that runs after every favorites change. -/
structure FavoritesAppState where
  favorites : List String
  storage : Option String
deriving DecidableEq

/-- One favorite toggle as the app performs it: the state update followed by the
    persistence effect `localStorage.setItem('favorites', JSON.stringify(favorites))`. -/
def toggleAndPersist (coinId : String) (st : FavoritesAppState) : FavoritesAppState :=
  let favs := toggleFavorite coinId st.favorites
  { favorites := favs, storage := some (jsonStringifyStringList favs) }

/-- A sequence of favorite toggles, each persisting as it goes. -/
def runToggles (actions : List String) (st : FavoritesAppState) : FavoritesAppState :=
  actions.foldl (fun s a => toggleAndPersist a s) st

theorem contains_eq_true_iff_mem {l : List String} {a : String} :
    l.contains a = true ↔ a ∈ l := by
  simp [List.elem_iff]

theorem mem_filter_ne {l : List String} {x a : String} :
    x ∈ l.filter (fun y => y != a) ↔ x ∈ l ∧ x ≠ a := by
  simp [List.mem_filter, bne_iff_ne]

theorem toggleFavorite_of_mem {l : List String} {id : String} (h : id ∈ l) :
    toggleFavorite id l = l.filter (fun y => y != id) := by
  unfold toggleFavorite
  rw [if_pos (contains_eq_true_iff_mem.mpr h)]

theorem toggleFavorite_of_not_mem {l : List String} {id : String} (h : id ∉ l) :
    toggleFavorite id l = l ++ [id] := by
  unfold toggleFavorite
  rw [if_neg (fun hcc => h (contains_eq_true_iff_mem.mp hcc))]

theorem filter_ne_self {l : List String} {a : String} (h : a ∉ l) :
    l.filter (fun y => y != a) = l := by
  refine List.filter_eq_self.mpr ?_
  intro b hb
  simp only [bne_iff_ne, ne_eq]
  rintro rfl
  exact h hb

theorem toggle_toggle_of_not_mem {l : List String} {id : String} (h : id ∉ l) :
    toggleFavorite id (toggleFavorite id l) = l := by
  rw [toggleFavorite_of_not_mem h]
  have hmem : id ∈ l ++ [id] := by simp
  rw [toggleFavorite_of_mem hmem, List.filter_append, filter_ne_self h]
  simp

theorem charsBeginWith_iff (pat hay : List Char) :
    charsBeginWith pat hay = true ↔ ∃ rest, hay = pat ++ rest := by
  induction pat generalizing hay with
  | nil => simp [charsBeginWith]
  | cons p ps ih =>
      cases hay with
      | nil => simp [charsBeginWith]
      | cons c cs =>
          simp only [charsBeginWith, Bool.and_eq_true, beq_iff_eq, ih, List.cons_append,
            List.cons.injEq]
          constructor
          · rintro ⟨rfl, rest, rfl⟩
            exact ⟨rest, rfl, rfl⟩
          · rintro ⟨rest, rfl, rfl⟩
            exact ⟨rfl, rest, rfl⟩

theorem charsContain_nil_pat (hay : List Char) : charsContain [] hay = true := by
  cases hay <;> simp [charsContain, charsBeginWith]

theorem charsContain_iff (pat hay : List Char) :
    charsContain pat hay = true ↔ IsSubstringOf pat hay := by
  induction hay with
  | nil =>
      rw [charsContain, charsBeginWith_iff]
      constructor
      · rintro ⟨rest, hr⟩
        rcases List.append_eq_nil.mp hr.symm with ⟨h1, h2⟩
        subst h1
        exact ⟨[], [], by simp⟩
      · rintro ⟨pre, post, hp⟩
        rcases List.append_eq_nil.mp hp.symm with ⟨h12, h3⟩
        rcases List.append_eq_nil.mp h12 with ⟨h1, h2⟩
        subst h2
        exact ⟨[], rfl⟩
  | cons c cs ih =>
      rw [charsContain, Bool.or_eq_true, charsBeginWith_iff, ih]
      constructor
      · rintro (⟨rest, hr⟩ | ⟨pre, post, hp⟩)
        · exact ⟨[], rest, by simpa using hr⟩
        · exact ⟨c :: pre, post, by simp [hp]⟩
      · rintro ⟨pre, post, hp⟩
        cases pre with
        | nil => exact Or.inl ⟨post, by simpa using hp⟩
        | cons p ps =>
            rw [List.cons_append, List.cons_append] at hp
            injection hp with h1 h2
            exact Or.inr ⟨ps, post, h2⟩

/-- C1 (counterexample): the claim says corrupt persisted text never raises an
    error and defaults to the empty list, but the initializer runs `JSON.parse`
    with no try/catch, so on the unparseable entry `"corrupt"` the read throws
    instead of returning the empty list. -/
theorem load_corrupt_counterexample :
    load (some "corrupt") = LoadResult.thrown ∧ LoadResult.thrown ≠ LoadResult.ok [] := by
  constructor
  · decide
  · decide

/-- Unfolding of `load` on a present, nonempty entry: the result is whatever
    `JSON.parse` gives. -/
theorem load_some_ne_empty {s : String} (hs : s ≠ "") :
    load (some s) = (match jsonParseStringList s with
                     | some l => LoadResult.ok l
                     | none => LoadResult.thrown) := by
  have hbn : ¬ ((s == "") = true) := by
    rw [beq_eq_false_iff_ne.mpr hs]
    exact Bool.false_ne_true
  simp only [load]
  rw [if_neg hbn]

/-- C1 (amended): `load` returns the parsed identifier list when the entry is
    present and parseable, and the empty list when the entry is absent or is the
    empty string (falsy); when the entry is nonempty and unparseable, the
    `JSON.parse` exception propagates out of the initializer. -/
theorem load_amended (s : String) (l : List String) :
    load none = LoadResult.ok [] ∧
    load (some "") = LoadResult.ok [] ∧
    (jsonParseStringList s = some l → load (some s) = LoadResult.ok l) ∧
    (s ≠ "" → jsonParseStringList s = none → load (some s) = LoadResult.thrown) := by
  refine ⟨rfl, rfl, ?_, ?_⟩
  · intro hp
    by_cases hs : s = ""
    · subst hs
      rw [show jsonParseStringList "" = none from by decide] at hp
      exact Option.noConfusion hp
    · rw [load_some_ne_empty hs, hp]
  · intro hs hp
    rw [load_some_ne_empty hs, hp]

/-- C1 witness for `load_amended`: the well-formed entry for the favorites list
    `["btc"]` parses and loads, and the unparseable entry `"corrupt"` throws. -/
theorem load_amended_witness :
    jsonParseStringList "[\"btc\"]" = some ["btc"] ∧
    load (some "[\"btc\"]") = LoadResult.ok ["btc"] ∧
    ("corrupt" : String) ≠ "" ∧
    jsonParseStringList "corrupt" = none ∧
    load (some "corrupt") = LoadResult.thrown :=
  ⟨by decide, (load_amended "[\"btc\"]" ["btc"]).2.2.1 (by decide), by decide, by decide,
   (load_amended "corrupt" []).2.2.2 (by decide) (by decide)⟩

/-- C2: the filtered list is a sublist of the coin list (original order), its
    members are exactly the coins whose display name or symbol contains the
    search string as a case-insensitive substring, and the empty search string
    leaves the coin list unchanged. -/
theorem filteredCoins_spec (coins : List Coin) (s : String) :
    List.Sublist (filteredCoins coins s) coins ∧
    (∀ c, c ∈ filteredCoins coins s ↔ c ∈ coins ∧ MatchesSearch s c) ∧
    filteredCoins coins "" = coins := by
  refine ⟨List.filter_sublist coins, fun c => ?_, ?_⟩
  · rw [filteredCoins, List.mem_filter, Bool.or_eq_true]
    unfold jsIncludes
    rw [charsContain_iff, charsContain_iff]
    exact Iff.rfl
  · have hempty : lowerChars "" = [] := rfl
    rw [filteredCoins]
    refine List.filter_eq_self.mpr ?_
    intro c _
    rw [Bool.or_eq_true]
    unfold jsIncludes
    rw [hempty]
    exact Or.inl (charsContain_nil_pat _)

/-- C3 (counterexample): the claim says two toggles in succession return the
    favorites list to its original state; on the list `["a", "b"]` toggling
    `"a"` twice yields `["b", "a"]`, which is not the original list (the
    re-added identifier moves to the end). -/
theorem toggle_twice_counterexample :
    toggleFavorite "a" (toggleFavorite "a" ["a", "b"]) = ["b", "a"] ∧
    (["b", "a"] : List String) ≠ (["a", "b"] : List String) := by
  constructor
  · decide
  · decide

/-- C3 (amended): `toggleFavorite id` removes `id` when present and appends it
    when absent, flips no other identifier's membership, and two toggles in
    succession restore the original membership (for every identifier); when `id`
    was absent the double toggle restores the original list exactly, while for a
    present `id` the restored set may be ordered differently. -/
theorem toggleFavorite_amended (l : List String) (id : String) :
    (id ∈ l → id ∉ toggleFavorite id l) ∧
    (id ∉ l → toggleFavorite id l = l ++ [id]) ∧
    (∀ x, x ≠ id → (x ∈ toggleFavorite id l ↔ x ∈ l)) ∧
    (∀ x, x ∈ toggleFavorite id (toggleFavorite id l) ↔ x ∈ l) ∧
    (id ∉ l → toggleFavorite id (toggleFavorite id l) = l) := by
  refine ⟨?_, fun h => toggleFavorite_of_not_mem h, ?_, ?_, fun h => toggle_toggle_of_not_mem h⟩
  · intro h hmem
    rw [toggleFavorite_of_mem h] at hmem
    exact (mem_filter_ne.mp hmem).2 rfl
  · intro x hx
    by_cases h : id ∈ l
    · rw [toggleFavorite_of_mem h, mem_filter_ne]
      exact ⟨fun hp => hp.1, fun hp => ⟨hp, hx⟩⟩
    · rw [toggleFavorite_of_not_mem h, List.mem_append, List.mem_singleton]
      exact ⟨fun hp => hp.elim (fun hq => hq) (fun hq => absurd hq hx),
             fun hp => Or.inl hp⟩
  · intro x
    by_cases h : id ∈ l
    · rw [toggleFavorite_of_mem h]
      have hid : id ∉ l.filter (fun y => y != id) := fun hc => (mem_filter_ne.mp hc).2 rfl
      rw [toggleFavorite_of_not_mem hid, List.mem_append, mem_filter_ne, List.mem_singleton]
      constructor
      · rintro (⟨hx, _⟩ | rfl)
        · exact hx
        · exact h
      · intro hx
        by_cases hxi : x = id
        · exact Or.inr hxi
        · exact Or.inl ⟨hx, hxi⟩
    · rw [toggle_toggle_of_not_mem h]

/-- C3 witness for `toggleFavorite_amended`: on `["a", "b"]`, toggling the
    present `"a"` removes it, toggling the absent `"c"` appends it, `"b"` is
    untouched by a toggle of `"a"`, and double-toggling the absent `"c"`
    restores the list exactly. -/
theorem toggleFavorite_amended_witness :
    (("a" : String) ∈ (["a", "b"] : List String) ∧ "a" ∉ toggleFavorite "a" ["a", "b"]) ∧
    (("c" : String) ∉ (["a", "b"] : List String) ∧ toggleFavorite "c" ["a", "b"] = ["a", "b", "c"]) ∧
    (("b" : String) ∈ toggleFavorite "a" ["a", "b"] ↔ ("b" : String) ∈ (["a", "b"] : List String)) ∧
    toggleFavorite "c" (toggleFavorite "c" ["a", "b"]) = ["a", "b"] :=
  ⟨⟨by decide, (toggleFavorite_amended ["a", "b"] "a").1 (by decide)⟩,
   ⟨by decide, (toggleFavorite_amended ["a", "b"] "c").2.1 (by decide)⟩,
   (toggleFavorite_amended ["a", "b"] "a").2.2.1 "b" (by decide),
   (toggleFavorite_amended ["a", "b"] "c").2.2.2.2 (by decide)⟩

/-- C4: when a list poll fails, the coin collection is unchanged, the loading
    flag is cleared, and the failure is appended to the console log instead of
    being thrown (the step is a total function into the next state). -/
theorem fetchCoins_failure_spec (st : AppState) (msg : String) :
    (fetchCoinsStep st (FetchResult.failure msg)).coins = st.coins ∧
    (fetchCoinsStep st (FetchResult.failure msg)).loading = false ∧
    (fetchCoinsStep st (FetchResult.failure msg)).errorLog =
      st.errorLog ++ ["Error fetching coins: " ++ msg] :=
  ⟨rfl, rfl, rfl⟩

/-- C5: a successful list poll replaces the in-memory coin collection with the
    response wholesale, whatever the previous state held — no field of any
    previous record survives into the new collection. -/
theorem fetchCoins_success_replaces (st : AppState) (data : List Coin) :
    (fetchCoinsStep st (FetchResult.ok data)).coins = data :=
  rfl

/-- A concrete market record used to instantiate the rendering theorems. -/
def sampleCoin : Coin :=
  { id := "bitcoin", symbol := "btc", name := "Bitcoin", current_price := 50000,
    price_change_percentage_24h := 0, price_change_percentage_1h_in_currency := none,
    price_change_percentage_7d_in_currency := none,
    price_change_percentage_30d_in_currency := none,
    market_cap := 1000000000, market_cap_rank := 1,
    market_cap_change_percentage_24h := none,
    total_volume := 30000000, high_24h := 51000, low_24h := 49000,
    circulating_supply := 19000000, total_supply := 21000000,
    max_supply := some 21000000,
    ath := 69000, ath_date := "2021-11-10", atl := 67, atl_date := "2013-07-06",
    image := "btc.png", coin_description := none }

/-- The sample record with a `null` max supply. -/
def coinNoMax : Coin :=
  { sampleCoin with id := "nomax", max_supply := none }

/-- The sample record with a max supply of `0`, a bounded number that is falsy
    in JavaScript. -/
def coinZeroMax : Coin :=
  { sampleCoin with id := "zeromax", max_supply := some 0 }

/-- C6: the 24h directional indicator is `up` exactly when the percentage change
    is strictly positive, so a change of exactly `0` renders as `down`. -/
theorem indicator24h_spec (c : Coin) :
    (indicator24h c = Direction.up ↔ 0 < c.price_change_percentage_24h) ∧
    (c.price_change_percentage_24h = 0 → indicator24h c = Direction.down) := by
  constructor
  · constructor
    · intro h
      by_contra hn
      rw [indicator24h, if_neg hn] at h
      exact Direction.noConfusion h
    · intro h
      rw [indicator24h, if_pos h]
  · intro h
    rw [indicator24h, if_neg (by rw [h]; exact lt_irrefl 0)]

/-- C6 witness for `indicator24h_spec`: the sample coin has a 24h change of
    exactly `0` and its indicator renders as `down`. -/
theorem indicator24h_spec_witness :
    sampleCoin.price_change_percentage_24h = 0 ∧ indicator24h sampleCoin = Direction.down :=
  ⟨rfl, (indicator24h_spec sampleCoin).2 rfl⟩

/-- The claim's reading of the bounded branch: some bounded number is stored in
    `max_supply` and the rendered text is that number, in millions, with the
    `M` suffix. -/
def RendersNumericMax (c : Coin) : Prop :=
  ∃ m, c.max_supply = some m ∧ maxSupplyText c = toFixed2 (m / 1000000) ++ "M"

/-- C7 (counterexample): the claim says every bounded `max_supply` renders
    numerically, but the source guards with JavaScript truthiness
    (`coin.max_supply ? ... : '∞'`), so the bounded value `0` renders as the
    infinity symbol instead. -/
theorem maxSupply_zero_counterexample :
    coinZeroMax.max_supply = some 0 ∧
    maxSupplyText coinZeroMax = "∞" ∧
    ¬ RendersNumericMax coinZeroMax := by
  refine ⟨rfl, by decide, ?_⟩
  rintro ⟨m, hm, hr⟩
  have hm0 : m = 0 := by
    have h2 : (some (0 : ℚ) : Option ℚ) = some m := hm
    exact (Option.some_inj.mp h2).symm
  subst hm0
  rw [show maxSupplyText coinZeroMax = "∞" from by decide] at hr
  rw [show (0 : ℚ) / 1000000 = 0 from by norm_num] at hr
  rw [show toFixed2 0 = "0.00" from by decide] at hr
  exact absurd hr (by decide)

/-- C7 (amended): a `null` max supply renders as the infinity symbol (the supply
    line ends in it), and every bounded, nonzero max supply renders numerically
    in millions; the bounded value `0` also hits the infinity branch because it
    is falsy in JavaScript. -/
theorem maxSupplyText_amended (c : Coin) :
    (c.max_supply = none → maxSupplyText c = "∞" ∧ supplyText c = supplyPrefix c ++ "∞") ∧
    (∀ m, c.max_supply = some m → m ≠ 0 → maxSupplyText c = toFixed2 (m / 1000000) ++ "M") ∧
    (c.max_supply = some 0 → maxSupplyText c = "∞") := by
  refine ⟨?_, ?_, ?_⟩
  · intro h
    have h1 : maxSupplyText c = "∞" := by
      rw [maxSupplyText, h]
    exact ⟨h1, by rw [supplyText, h1]⟩
  · intro m h hm0
    rw [maxSupplyText, h]
    simp only [if_neg hm0]
  · intro h
    rw [maxSupplyText, h]
    decide

/-- C7 witness for `maxSupplyText_amended`: the `null` max supply of `coinNoMax`
    renders as the infinity symbol, and the bounded nonzero max supply of
    `sampleCoin` renders in millions with the `M` suffix. -/
theorem maxSupplyText_amended_witness :
    (coinNoMax.max_supply = none ∧ maxSupplyText coinNoMax = "∞") ∧
    (sampleCoin.max_supply = some 21000000 ∧ (21000000 : ℚ) ≠ 0 ∧
      maxSupplyText sampleCoin = toFixed2 ((21000000 : ℚ) / 1000000) ++ "M") :=
  ⟨⟨rfl, ((maxSupplyText_amended coinNoMax).1 rfl).1⟩,
   ⟨rfl, by decide, (maxSupplyText_amended sampleCoin).2.1 21000000 rfl (by decide)⟩⟩

/-- C8: after a failed detail fetch the loading state clears and the view is the
    not-found placeholder, with the step a total function (no thrown error); the
    fetched record is committed only on success, where the view shows it. -/
theorem coinDetail_spec (msg : String) (c : Coin) (st : DetailState) :
    renderDetail (fetchCoinDetailStep initialDetailState (FetchResult.failure msg)) =
      DetailView.notFound ∧
    (fetchCoinDetailStep st (FetchResult.failure msg)).coin = st.coin ∧
    (fetchCoinDetailStep st (FetchResult.ok c)).coin = some c ∧
    renderDetail (fetchCoinDetailStep initialDetailState (FetchResult.ok c)) =
      DetailView.detail c ∧
    renderDetail initialDetailState = DetailView.loadingView :=
  ⟨rfl, rfl, rfl, rfl, rfl⟩

/-- C9: starting from any state, after every nonempty sequence of favorite
    toggles the persisted entry is exactly the serialization of the current
    in-memory favorites list — the write-through invariant of the persistence
    effect, maintained across every mutation. -/
theorem favorites_persistence_invariant (st : FavoritesAppState) (a : String)
    (acts : List String) :
    (runToggles (a :: acts) st).storage =
      some (jsonStringifyStringList (runToggles (a :: acts) st).favorites) := by
  induction acts generalizing st a with
  | nil => rfl
  | cons b bs ih => exact ih (toggleAndPersist a st) b

/-- C10: on a duplicate-free favorites list, a toggle keeps the list
    duplicate-free, and the subsequence of identifiers other than the toggled
    one is unchanged (removal filters in place, addition appends at the end). -/
theorem toggleFavorite_nodup_order (l : List String) (id : String) (h : l.Nodup) :
    (toggleFavorite id l).Nodup ∧
    (toggleFavorite id l).filter (fun y => y != id) = l.filter (fun y => y != id) := by
  by_cases hmem : id ∈ l
  · rw [toggleFavorite_of_mem hmem]
    refine ⟨h.filter _, ?_⟩
    rw [List.filter_filter]
    simp only [Bool.and_self]
  · rw [toggleFavorite_of_not_mem hmem]
    constructor
    · simp [List.nodup_append, h, hmem]
    · rw [List.filter_append]
      simp [filter_ne_self hmem]

/-- C10 witness for `toggleFavorite_nodup_order`: on the duplicate-free list
    `["a", "b"]`, toggling `"a"` keeps the result duplicate-free and preserves
    the order of the other identifiers. -/
theorem toggleFavorite_nodup_order_witness :
    (["a", "b"] : List String).Nodup ∧
    (toggleFavorite "a" ["a", "b"]).Nodup ∧
    (toggleFavorite "a" ["a", "b"]).filter (fun y => y != "a") =
      (["a", "b"] : List String).filter (fun y => y != "a") :=
  ⟨by decide, (toggleFavorite_nodup_order ["a", "b"] "a" (by decide)).1,
   (toggleFavorite_nodup_order ["a", "b"] "a" (by decide)).2⟩
